import Mathlib

/-!
Verification of the stat_sim core: the frequency-table distribution model
(`HistogramData`), the raw-observation statistics (`StatisticsFunctions`),
and the resampling engine (`Sampling`).

Modelling conventions for the JavaScript source:
* JS numbers are modelled as `ℚ` for all code whose claims are exact
  arithmetic, and as `ℝ` for the transcendental normal-CDF series `zprob`.
* A JS division that can produce a non-finite value (division by zero)
  is modelled as an `Option`-valued division `jsDiv`; `none` stands for
  the non-finite result.
* `Math.round` rounds half toward positive infinity: `⌊x + 1/2⌋`.
* Out-of-range JS array reads (which yield `undefined`) are modelled with
  `List.getD _ 0`; the theorems carry the data-model length invariants
  under which every access the code performs is in range.
* A JS array with holes (as built by `sampleData[i] = v`) is modelled as a
  list of `Option ℚ` of fixed length, `none` standing for a hole.
-/

set_option autoImplicit false

/-- JS `Math.round`: round half toward positive infinity. -/
def jsRound (q : ℚ) : ℤ := ⌊q + 1 / 2⌋

/-- JS `parseFloat(x.toFixed(2))`: round to two decimal places, ties away
from the lower value (the ECMA spec picks the larger candidate). -/
def roundTo2 (q : ℚ) : ℚ := (jsRound (100 * q) : ℚ) / 100

/-- JS division, `none` when the divisor is zero (the JS result would be
non-finite: `Infinity` or `NaN`). -/
def jsDiv (a b : ℚ) : Option ℚ := if b = 0 then none else some (a / b)

namespace StatisticsFunctions

/-- `StatisticsFunctions.variance`: single-pass population variance
`(Σx² − (Σx)²/n) / n`. -/
def variance (values : List ℚ) : Option ℚ :=
  let sum := values.sum
  let sumOfSquares := (values.map fun v => v * v).sum
  let numberOfValues : ℚ := values.length
  (jsDiv (sum * sum) numberOfValues).bind fun sq =>
    jsDiv (sumOfSquares - sq) numberOfValues

/-- `StatisticsFunctions.varianceUnbiased`: `variance(values) · n / (n−1)`. -/
def varianceUnbiased (values : List ℚ) : Option ℚ :=
  let sampleSize : ℚ := values.length
  (variance values).bind fun v => jsDiv (v * sampleSize) (sampleSize - 1)

end StatisticsFunctions

/-- The `HistogramData` data model: parallel bin values and frequencies with
cached aggregate sums. -/
structure HistogramData where
  values : List ℚ
  frequencies : List ℚ
  sum : ℚ
  sumOfSquares : ℚ
deriving DecidableEq

/-- The recomputation of `sum` performed by
`HistogramData.prototype.computeSums` (a loop over `numberOfBins`, i.e. over
the length of `values`). -/
def computedSum (values frequencies : List ℚ) : ℚ :=
  ((List.range values.length).map fun i => values.getD i 0 * frequencies.getD i 0).sum

/-- The recomputation of `sumOfSquares` performed by
`HistogramData.prototype.computeSums`. -/
def computedSumOfSquares (values frequencies : List ℚ) : ℚ :=
  ((List.range values.length).map fun i =>
    values.getD i 0 * values.getD i 0 * frequencies.getD i 0).sum

/-- The `HistogramData` constructor: the supplied sums are kept unless both
are falsy (both zero), in which case `computeSums` recomputes them from the
binned representation. -/
def HistogramData.make (values frequencies : List ℚ) (sum sumOfSquares : ℚ) :
    HistogramData :=
  if sum = 0 ∧ sumOfSquares = 0 then
    { values := values, frequencies := frequencies,
      sum := computedSum values frequencies,
      sumOfSquares := computedSumOfSquares values frequencies }
  else
    { values := values, frequencies := frequencies,
      sum := sum, sumOfSquares := sumOfSquares }

/-- `HistogramData.binIndexForDataPoint`: nearest-bin index, clamped to the
valid range. -/
def HistogramData.binIndexForDataPoint (dataPoint : ℚ) (binValues : List ℚ) : ℤ :=
  let step := binValues.getD 1 0 - binValues.getD 0 0
  let binIndex := jsRound ((dataPoint - binValues.getD 0 0) / step)
  min (max binIndex 0) ((binValues.length : ℤ) - 1)

/-- `frequencies[binIndex]++`: in-range indices update the list; an
out-of-range index leaves the array's list part unchanged (JS would create a
detached extra property). -/
def bumpFreq (frequencies : List ℚ) (binIndex : ℤ) : List ℚ :=
  if 0 ≤ binIndex ∧ binIndex.toNat < frequencies.length then
    frequencies.set binIndex.toNat (frequencies.getD binIndex.toNat 0 + 1)
  else frequencies

/-- The accumulation loop of `HistogramData.makeWithDataPoints`. -/
def mwdpGo (binValues : List ℚ) :
    List ℚ → List ℚ → ℚ → ℚ → List ℚ × ℚ × ℚ
  | [], freqs, sum, sumOfSquares => (freqs, sum, sumOfSquares)
  | p :: ps, freqs, sum, sumOfSquares =>
      mwdpGo binValues ps
        (bumpFreq freqs (HistogramData.binIndexForDataPoint p binValues))
        (sum + p) (sumOfSquares + p * p)

/-- `HistogramData.makeWithDataPoints`: bin every point, accumulating raw
`sum`/`sumOfSquares`, then build through the constructor. -/
def HistogramData.makeWithDataPoints (datapoints binValues : List ℚ) :
    HistogramData :=
  let acc := mwdpGo binValues datapoints (List.replicate binValues.length 0) 0 0
  HistogramData.make binValues acc.1 acc.2.1 acc.2.2

/-- `HistogramData.prototype.numberOfBins`. -/
def HistogramData.numberOfBins (d : HistogramData) : ℕ := d.values.length

/-- `HistogramData.prototype.numberOfObservations`: the sum of the
frequencies. -/
def HistogramData.numberOfObservations (d : HistogramData) : ℚ :=
  d.frequencies.sum

/-- `HistogramData.makeByCombiningData`: fails on differing bin counts or
differing bin values; otherwise sums frequencies and cached aggregates. -/
def HistogramData.makeByCombiningData (h1 h2 : HistogramData) :
    Except String HistogramData :=
  if h1.numberOfBins ≠ h2.numberOfBins then
    Except.error "Attempt to merge two histograms of different size"
  else if ¬ ((List.range h1.numberOfBins).all fun i =>
      decide (h1.values.getD i 0 = h2.values.getD i 0)) then
    Except.error "Attempt to merge two histograms of different scale"
  else
    Except.ok (HistogramData.make h1.values
      ((List.range h1.numberOfBins).map fun i =>
        h1.frequencies.getD i 0 + h2.frequencies.getD i 0)
      (h1.sum + h2.sum) (h1.sumOfSquares + h2.sumOfSquares))

/-- The data-model invariant: frequencies parallel to values, and the cached
aggregates agree with a recomputation from the current frequencies. -/
def HistogramData.Consistent (d : HistogramData) : Prop :=
  d.frequencies.length = d.values.length ∧
  d.sum = computedSum d.values d.frequencies ∧
  d.sumOfSquares = computedSumOfSquares d.values d.frequencies

instance (d : HistogramData) : Decidable d.Consistent := by
  unfold HistogramData.Consistent; infer_instance

/-! ## Claim C7: unbiased variance relation -/

/-- C7: for `n ≥ 2`, `varianceUnbiased(values)` equals
`variance(values) · n / (n−1)`, and for `n ≤ 1` it is undefined (division by
zero, modelled as `none`). -/
theorem varianceUnbiased_relation (values : List ℚ) :
    (2 ≤ values.length →
      ∃ v, StatisticsFunctions.variance values = some v ∧
        StatisticsFunctions.varianceUnbiased values =
          some (v * values.length / ((values.length : ℚ) - 1))) ∧
    (values.length ≤ 1 →
      StatisticsFunctions.varianceUnbiased values = none) := by
  constructor
  · intro h2
    have hn : ((values.length : ℚ)) ≠ 0 := by
      have : (0 : ℚ) < values.length := by exact_mod_cast Nat.lt_of_lt_of_le (by norm_num) h2
      exact ne_of_gt this
    have hn1 : ((values.length : ℚ)) - 1 ≠ 0 := by
      have : (1 : ℚ) < values.length := by exact_mod_cast Nat.lt_of_lt_of_le (by norm_num) h2
      intro h; rw [sub_eq_zero] at h; exact absurd h.symm (ne_of_lt this)
    refine ⟨(((values.map fun v => v * v).sum) - values.sum * values.sum / values.length) / values.length, ?_, ?_⟩
    · simp [StatisticsFunctions.variance, jsDiv, hn]
    · simp [StatisticsFunctions.varianceUnbiased, StatisticsFunctions.variance,
        jsDiv, hn, hn1]
  · intro h1
    interval_cases h : values.length
    · have hv : StatisticsFunctions.variance values = none := by
        simp [StatisticsFunctions.variance, jsDiv, h]
      simp [StatisticsFunctions.varianceUnbiased, hv]
    · have hn : ((values.length : ℚ)) ≠ 0 := by rw [h]; norm_num
      have hz : ((values.length : ℚ)) - 1 = 0 := by rw [h]; norm_num
      simp [StatisticsFunctions.varianceUnbiased, StatisticsFunctions.variance,
        jsDiv, hn, hz]

/-- Witness for C7 at a concrete input. -/
theorem varianceUnbiased_relation_witness :
    (2 ≤ ([1, 3] : List ℚ).length) ∧
    (∃ v, StatisticsFunctions.variance [1, 3] = some v ∧
      StatisticsFunctions.varianceUnbiased [1, 3] =
        some (v * ([1, 3] : List ℚ).length / ((([1, 3] : List ℚ).length : ℚ) - 1))) := by
  exact ⟨by decide, (varianceUnbiased_relation [1, 3]).1 (by decide)⟩

/-! ## Claim C8: bin index clamping -/

/-- C8: the bin index is `round((x − values[0]) / step)` clamped to
`[0, N−1]`, hence always a valid index; for bins `[0,1,2,3]`, `-5` maps to
`0` and `50` maps to `3`. -/
theorem binIndexForDataPoint_clamped :
    (∀ (x : ℚ) (values : List ℚ), 2 ≤ values.length →
      values.getD 0 0 < values.getD 1 0 →
      (0 ≤ HistogramData.binIndexForDataPoint x values ∧
        HistogramData.binIndexForDataPoint x values ≤ (values.length : ℤ) - 1) ∧
      HistogramData.binIndexForDataPoint x values =
        min (max (jsRound ((x - values.getD 0 0) /
          (values.getD 1 0 - values.getD 0 0))) 0) ((values.length : ℤ) - 1)) ∧
    HistogramData.binIndexForDataPoint (-5) [0, 1, 2, 3] = 0 ∧
    HistogramData.binIndexForDataPoint 50 [0, 1, 2, 3] = 3 := by
  refine ⟨?_, ?_, ?_⟩
  · intro x values h2 _
    constructor
    · have hN : (2 : ℤ) ≤ (values.length : ℤ) := by exact_mod_cast h2
      unfold HistogramData.binIndexForDataPoint
      dsimp only
      omega
    · rfl
  · show min (max (jsRound ((-5 - 0) / (1 - 0))) 0) 3 = 0
    norm_num [jsRound]
  · show min (max (jsRound ((50 - 0) / (1 - 0))) 0) 3 = 3
    norm_num [jsRound]

/-- Witness for C8 at a concrete input. -/
theorem binIndexForDataPoint_clamped_witness :
    (2 ≤ ([0, 1, 2, 3] : List ℚ).length) ∧
    (([0, 1, 2, 3] : List ℚ).getD 0 0 < ([0, 1, 2, 3] : List ℚ).getD 1 0) ∧
    (0 ≤ HistogramData.binIndexForDataPoint 50 [0, 1, 2, 3] ∧
      HistogramData.binIndexForDataPoint 50 [0, 1, 2, 3] ≤
        (([0, 1, 2, 3] : List ℚ).length : ℤ) - 1) := by
  exact ⟨by decide, by decide,
    (binIndexForDataPoint_clamped.1 50 [0, 1, 2, 3] (by decide) (by decide)).1⟩

/-! ## List helper lemmas -/

lemma getD_map_range (h : ℕ → ℚ) {n i : ℕ} (hi : i < n) :
    ((List.range n).map h).getD i 0 = h i := by
  rw [List.getD_eq_getElem?_getD, List.getElem?_map, List.getElem?_range hi]
  rfl

lemma rangeMap_getD_self (l : List ℚ) :
    (List.range l.length).map (fun i => l.getD i 0) = l := by
  apply List.ext_getElem
  · simp
  · intro i h1 h2
    have hi : i < l.length := h2
    simp [List.getD_eq_getElem?_getD, List.getElem?_eq_getElem hi]

lemma sum_map_range_add (n : ℕ) (u w : ℕ → ℚ) :
    ((List.range n).map fun i => u i + w i).sum =
      ((List.range n).map u).sum + ((List.range n).map w).sum := by
  induction n with
  | zero => simp
  | succ n ih => simp [List.range_succ, ih]; ring

lemma rangeMap_add_eq_zipWith :
    ∀ (f g : List ℚ), f.length = g.length →
      (List.range f.length).map (fun i => f.getD i 0 + g.getD i 0) =
        List.zipWith (fun x y => x + y) f g := by
  intro f
  induction f with
  | nil => intro g h; simp
  | cons x xs ih =>
    intro g h
    cases g with
    | nil => exact absurd h (by simp)
    | cons y ys =>
      have hlen : xs.length = ys.length := by simpa using h
      simp only [List.length_cons, List.range_succ_eq_map, List.map_cons,
        List.map_map, List.zipWith_cons_cons]
      refine congrArg₂ _ (by simp) ?_
      rw [← ih ys hlen]
      apply List.map_congr_left
      intro i _
      simp

lemma zipWith_add_sum :
    ∀ (f g : List ℚ), f.length = g.length →
      (List.zipWith (fun x y => x + y) f g).sum = f.sum + g.sum := by
  intro f
  induction f with
  | nil =>
    intro g h
    cases g with
    | nil => simp
    | cons y ys => exact absurd h (by simp)
  | cons x xs ih =>
    intro g h
    cases g with
    | nil => exact absurd h (by simp)
    | cons y ys =>
      have hlen : xs.length = ys.length := by simpa using h
      simp [ih ys hlen]; ring

lemma filterMap_length_of_isSome {α β : Type} (g : α → Option β) :
    ∀ l : List α, (∀ a ∈ l, (g a).isSome) → (l.filterMap g).length = l.length := by
  intro l
  induction l with
  | nil => intro _; rfl
  | cons x xs ih =>
    intro h
    have hx := h x (by simp)
    obtain ⟨b, hb⟩ := Option.isSome_iff_exists.mp hx
    simp [List.filterMap_cons, hb, ih fun a ha => h a (by simp [ha])]

/-! ## Combine: helper lemmas -/

lemma computedSum_rangeAdd (v fa fb : List ℚ) :
    computedSum v ((List.range v.length).map fun i => fa.getD i 0 + fb.getD i 0) =
      computedSum v fa + computedSum v fb := by
  unfold computedSum
  have hc : ∀ i ∈ List.range v.length,
      v.getD i 0 *
        (((List.range v.length).map fun j => fa.getD j 0 + fb.getD j 0).getD i 0) =
      v.getD i 0 * fa.getD i 0 + v.getD i 0 * fb.getD i 0 := by
    intro i hi
    rw [getD_map_range _ (List.mem_range.mp hi)]
    ring
  rw [List.map_congr_left hc, sum_map_range_add]

lemma computedSumOfSquares_rangeAdd (v fa fb : List ℚ) :
    computedSumOfSquares v
        ((List.range v.length).map fun i => fa.getD i 0 + fb.getD i 0) =
      computedSumOfSquares v fa + computedSumOfSquares v fb := by
  unfold computedSumOfSquares
  have hc : ∀ i ∈ List.range v.length,
      v.getD i 0 * v.getD i 0 *
        (((List.range v.length).map fun j => fa.getD j 0 + fb.getD j 0).getD i 0) =
      v.getD i 0 * v.getD i 0 * fa.getD i 0 +
        v.getD i 0 * v.getD i 0 * fb.getD i 0 := by
    intro i hi
    rw [getD_map_range _ (List.mem_range.mp hi)]
    ring
  rw [List.map_congr_left hc, sum_map_range_add]

lemma computedSum_zipWith (v fa fb : List ℚ) (ha : fa.length = v.length)
    (hb : fb.length = v.length) :
    computedSum v (List.zipWith (fun x y => x + y) fa fb) =
      computedSum v fa + computedSum v fb := by
  rw [← rangeMap_add_eq_zipWith fa fb (ha.trans hb.symm), ha]
  exact computedSum_rangeAdd v fa fb

lemma computedSumOfSquares_zipWith (v fa fb : List ℚ) (ha : fa.length = v.length)
    (hb : fb.length = v.length) :
    computedSumOfSquares v (List.zipWith (fun x y => x + y) fa fb) =
      computedSumOfSquares v fa + computedSumOfSquares v fb := by
  rw [← rangeMap_add_eq_zipWith fa fb (ha.trans hb.symm), ha]
  exact computedSumOfSquares_rangeAdd v fa fb

lemma combine_ok_spec (a b : HistogramData) (hv : a.values = b.values)
    (ha : a.Consistent) (hb : b.Consistent) :
    HistogramData.makeByCombiningData a b =
      Except.ok (HistogramData.mk a.values
        (List.zipWith (fun x y => x + y) a.frequencies b.frequencies)
        (a.sum + b.sum) (a.sumOfSquares + b.sumOfSquares)) := by
  obtain ⟨hal, has, haq⟩ := ha
  obtain ⟨hbl, hbs, hbq⟩ := hb
  have hlen : a.numberOfBins = b.numberOfBins := by
    unfold HistogramData.numberOfBins; rw [hv]
  have hfl : a.frequencies.length = b.frequencies.length := by rw [hal, hbl, hv]
  have hblv : b.frequencies.length = a.values.length := by rw [hbl, hv]
  unfold HistogramData.makeByCombiningData
  rw [if_neg (by simp [hlen])]
  rw [if_neg (by simp [List.all_eq_true, hv])]
  have hzip : (List.range a.numberOfBins).map
      (fun i => a.frequencies.getD i 0 + b.frequencies.getD i 0) =
      List.zipWith (fun x y => x + y) a.frequencies b.frequencies := by
    have hNb : a.numberOfBins = a.frequencies.length := hal.symm
    rw [hNb]
    exact rangeMap_add_eq_zipWith a.frequencies b.frequencies hfl
  rw [hzip]
  unfold HistogramData.make
  by_cases hzero : a.sum + b.sum = 0 ∧ a.sumOfSquares + b.sumOfSquares = 0
  · rw [if_pos hzero]
    refine congrArg Except.ok ?_
    have h1 : computedSum a.values
        (List.zipWith (fun x y => x + y) a.frequencies b.frequencies) =
        a.sum + b.sum := by
      rw [computedSum_zipWith a.values a.frequencies b.frequencies hal hblv,
        has, hbs]
      rw [hv]
    have h2 : computedSumOfSquares a.values
        (List.zipWith (fun x y => x + y) a.frequencies b.frequencies) =
        a.sumOfSquares + b.sumOfSquares := by
      rw [computedSumOfSquares_zipWith a.values a.frequencies b.frequencies hal hblv,
        haq, hbq]
      rw [hv]
    rw [h1, h2]
  · rw [if_neg hzero]

lemma combine_result_props (a b : HistogramData) (hv : a.values = b.values)
    (ha : a.Consistent) (hb : b.Consistent) :
    ∃ c, HistogramData.makeByCombiningData a b = Except.ok c ∧
      c.values = a.values ∧
      c.frequencies = List.zipWith (fun x y => x + y) a.frequencies b.frequencies ∧
      c.sum = a.sum + b.sum ∧ c.sumOfSquares = a.sumOfSquares + b.sumOfSquares ∧
      c.Consistent ∧
      c.numberOfObservations = a.numberOfObservations + b.numberOfObservations := by
  have hal := ha.1
  have hbl := hb.1
  have hblv : b.frequencies.length = a.values.length := by rw [hbl, hv]
  have hfl : a.frequencies.length = b.frequencies.length := by rw [hal, hblv]
  refine ⟨_, combine_ok_spec a b hv ha hb, rfl, rfl, rfl, rfl, ?_, ?_⟩
  · refine ⟨?_, ?_, ?_⟩
    · simp [List.length_zipWith, hal, hblv]
    · show a.sum + b.sum = computedSum a.values (List.zipWith _ a.frequencies b.frequencies)
      rw [computedSum_zipWith a.values a.frequencies b.frequencies hal hblv,
        ha.2.1, hb.2.1, hv]
    · show a.sumOfSquares + b.sumOfSquares =
        computedSumOfSquares a.values (List.zipWith _ a.frequencies b.frequencies)
      rw [computedSumOfSquares_zipWith a.values a.frequencies b.frequencies hal hblv,
        ha.2.2, hb.2.2, hv]
  · show (List.zipWith (fun x y => x + y) a.frequencies b.frequencies).sum =
      a.frequencies.sum + b.frequencies.sum
    exact zipWith_add_sum a.frequencies b.frequencies hfl

/-! ## Claim C2: combine adds frequencies, sums and counts -/

/-- C2: combining two distributions with identical bin values succeeds and
returns element-wise summed frequencies, summed `sum`/`sumOfSquares`, and an
additive observation count; the total count is commutative and associative. -/
theorem combine_adds (a b : HistogramData) (hv : a.values = b.values)
    (ha : a.Consistent) (hb : b.Consistent) :
    ∃ c, HistogramData.makeByCombiningData a b = Except.ok c ∧
      c.values = a.values ∧
      c.frequencies = List.zipWith (fun x y => x + y) a.frequencies b.frequencies ∧
      c.sum = a.sum + b.sum ∧
      c.sumOfSquares = a.sumOfSquares + b.sumOfSquares ∧
      c.numberOfObservations = a.numberOfObservations + b.numberOfObservations ∧
      (∃ c2, HistogramData.makeByCombiningData b a = Except.ok c2 ∧
        c2.numberOfObservations = c.numberOfObservations) ∧
      (∀ e, e.values = a.values → e.Consistent →
        ∃ cl cr cz, HistogramData.makeByCombiningData c e = Except.ok cl ∧
          HistogramData.makeByCombiningData b e = Except.ok cr ∧
          HistogramData.makeByCombiningData a cr = Except.ok cz ∧
          cl.numberOfObservations = cz.numberOfObservations) := by
  obtain ⟨c, hok, hcv, hcf, hcs, hcq, hcC, hcn⟩ := combine_result_props a b hv ha hb
  refine ⟨c, hok, hcv, hcf, hcs, hcq, hcn, ?_, ?_⟩
  · obtain ⟨c2, hok2, _, _, _, _, _, hn2⟩ := combine_result_props b a hv.symm hb ha
    refine ⟨c2, hok2, ?_⟩
    rw [hn2, hcn]; ring
  · intro e hev heC
    obtain ⟨cl, hok3, _, _, _, _, _, hn3⟩ :=
      combine_result_props c e (hcv.trans hev.symm) hcC heC
    obtain ⟨cr, hok4, hv4, _, _, _, hC4, hn4⟩ :=
      combine_result_props b e (hv.symm.trans hev.symm) hb heC
    obtain ⟨cz, hok5, _, _, _, _, _, hn5⟩ :=
      combine_result_props a cr (hv.trans hv4.symm) ha hC4
    refine ⟨cl, cr, cz, hok3, hok4, hok5, ?_⟩
    rw [hn3, hcn, hn5, hn4]; ring

/-- A concrete consistent histogram used by witnesses. -/
def histA : HistogramData := HistogramData.mk [0, 1] [1, 2] 2 2

lemma rangeMap_binop_eq_zipWith (op : ℚ → ℚ → ℚ) :
    ∀ (v f : List ℚ), f.length = v.length →
      (List.range v.length).map (fun i => op (v.getD i 0) (f.getD i 0)) =
        List.zipWith op v f := by
  intro v
  induction v with
  | nil => intro f h; simp
  | cons x xs ih =>
    intro f h
    cases f with
    | nil => exact absurd h (by simp)
    | cons y ys =>
      have hlen : ys.length = xs.length := by simpa using h
      simp only [List.length_cons, List.range_succ_eq_map, List.map_cons,
        List.map_map, List.zipWith_cons_cons]
      refine congrArg₂ _ (by simp) ?_
      rw [← ih ys hlen]
      apply List.map_congr_left
      intro i _
      simp

lemma computedSum_eq_zipWith (v f : List ℚ) (h : f.length = v.length) :
    computedSum v f = (List.zipWith (fun x y => x * y) v f).sum := by
  unfold computedSum
  rw [rangeMap_binop_eq_zipWith (fun x y => x * y) v f h]

lemma computedSumOfSquares_eq_zipWith (v f : List ℚ) (h : f.length = v.length) :
    computedSumOfSquares v f = (List.zipWith (fun x y => x * x * y) v f).sum := by
  unfold computedSumOfSquares
  rw [rangeMap_binop_eq_zipWith (fun x y => x * x * y) v f h]

lemma histA_consistent : histA.Consistent := by
  refine ⟨rfl, ?_, ?_⟩
  · rw [computedSum_eq_zipWith histA.values histA.frequencies rfl]
    norm_num [histA]
  · rw [computedSumOfSquares_eq_zipWith histA.values histA.frequencies rfl]
    norm_num [histA]

/-- Witness for C2 at a concrete input. -/
theorem combine_adds_witness :
    histA.Consistent ∧
    ∃ c, HistogramData.makeByCombiningData histA histA = Except.ok c ∧
      c.numberOfObservations = histA.numberOfObservations + histA.numberOfObservations := by
  refine ⟨histA_consistent, ?_⟩
  obtain ⟨c, hok, _, _, _, _, hn, _, _⟩ :=
    combine_adds histA histA rfl histA_consistent histA_consistent
  exact ⟨c, hok, hn⟩

/-! ## Claim C3: combine fails exactly on shape mismatch -/

lemma combine_size_error (a b : HistogramData) (h : a.values.length ≠ b.values.length) :
    HistogramData.makeByCombiningData a b =
      Except.error "Attempt to merge two histograms of different size" := by
  unfold HistogramData.makeByCombiningData HistogramData.numberOfBins
  rw [if_pos h]

lemma combine_scale_error (a b : HistogramData) (hl : a.values.length = b.values.length)
    (hd : ∃ i < a.values.length, a.values.getD i 0 ≠ b.values.getD i 0) :
    HistogramData.makeByCombiningData a b =
      Except.error "Attempt to merge two histograms of different scale" := by
  obtain ⟨i, hi, hne⟩ := hd
  unfold HistogramData.makeByCombiningData HistogramData.numberOfBins
  rw [if_neg (by simp [hl]), if_pos ?_]
  intro hall
  rw [List.all_eq_true] at hall
  exact hne (of_decide_eq_true (hall i (List.mem_range.mpr hi)))

lemma combine_ok_of_values_agree (a b : HistogramData)
    (hl : a.values.length = b.values.length)
    (hall : ∀ i < a.values.length, a.values.getD i 0 = b.values.getD i 0) :
    ∃ c, HistogramData.makeByCombiningData a b = Except.ok c := by
  unfold HistogramData.makeByCombiningData HistogramData.numberOfBins
  rw [if_neg (by simp [hl]), if_neg ?_]
  · exact ⟨_, rfl⟩
  · intro hno
    apply hno
    rw [List.all_eq_true]
    intro i hi
    exact decide_eq_true (hall i (List.mem_range.mp hi))

/-- C3: `combine` fails, with distinct error kinds, exactly when the two
distributions have different bin counts or a differing bin value at some
index; combining values `[0,1,2]` with `[0,1,3]` fails. -/
theorem combine_shape_mismatch :
    (∀ a b : HistogramData,
      (∃ msg, HistogramData.makeByCombiningData a b = Except.error msg) ↔
        (a.values.length ≠ b.values.length ∨
          ∃ i < a.values.length, a.values.getD i 0 ≠ b.values.getD i 0)) ∧
    (∀ a b : HistogramData, a.values.length ≠ b.values.length →
      HistogramData.makeByCombiningData a b =
        Except.error "Attempt to merge two histograms of different size") ∧
    (∀ a b : HistogramData, a.values.length = b.values.length →
      (∃ i < a.values.length, a.values.getD i 0 ≠ b.values.getD i 0) →
      HistogramData.makeByCombiningData a b =
        Except.error "Attempt to merge two histograms of different scale") ∧
    (∃ msg, HistogramData.makeByCombiningData
      (HistogramData.mk [0, 1, 2] [0, 0, 0] 0 0)
      (HistogramData.mk [0, 1, 3] [0, 0, 0] 0 0) = Except.error msg) := by
  refine ⟨?_, combine_size_error, combine_scale_error, ?_⟩
  · intro a b
    constructor
    · rintro ⟨msg, hmsg⟩
      by_contra hcon
      push_neg at hcon
      obtain ⟨hl, hall⟩ := hcon
      obtain ⟨c, hc⟩ := combine_ok_of_values_agree a b hl hall
      rw [hc] at hmsg
      cases hmsg
    · rintro (hl | hd)
      · exact ⟨_, combine_size_error a b hl⟩
      · by_cases hl : a.values.length = b.values.length
        · exact ⟨_, combine_scale_error a b hl hd⟩
        · exact ⟨_, combine_size_error a b hl⟩
  · exact ⟨_, combine_scale_error _ _ (by decide) ⟨2, by decide, by decide⟩⟩

/-- Witness for C3 at a concrete input. -/
theorem combine_shape_mismatch_witness :
    ∃ msg, HistogramData.makeByCombiningData (HistogramData.mk [0, 1] [0, 0] 0 0)
      (HistogramData.mk [0, 1, 2] [0, 0, 0] 0 0) = Except.error msg :=
  (combine_shape_mismatch.1 _ _).mpr (Or.inl (by decide))

/-! ## Median -/

/-- The scan loop of `HistogramData.prototype.median`: walk the bins with the
running cumulative frequency `nc`; on `nc == IR` interpolate toward the next
bin (plain bin value at the last bin), on `nc > IR` return the bin value;
`median` stays `0` if the loop finishes without a break. -/
def medianGo (R IR : ℚ) : List ℚ → List ℚ → ℚ → ℚ
  | [], _, _ => 0
  | v :: vs, fs, nc =>
    if nc + fs.headD 0 = IR then
      (match vs with
        | [] => v
        | v2 :: _ => v + (R - IR) * (v2 - v))
    else if IR < nc + fs.headD 0 then v
    else medianGo R IR vs fs.tail (nc + fs.headD 0)

/-- `var R = 0.5 * (numberOfObservations + 1)` in `median`. -/
def HistogramData.medianR (d : HistogramData) : ℚ :=
  1 / 2 * (d.numberOfObservations + 1)

/-- `var IR = Math.floor(R)` in `median`. -/
def HistogramData.medianIR (d : HistogramData) : ℚ :=
  ((⌊d.medianR⌋ : ℤ) : ℚ)

/-- `HistogramData.prototype.median`. -/
def HistogramData.median (d : HistogramData) : ℚ :=
  medianGo d.medianR d.medianIR d.values d.frequencies 0

lemma take_one_sum (fs : List ℚ) : (fs.take 1).sum = fs.headD 0 := by
  cases fs <;> simp

lemma take_succ_sum (fs : List ℚ) (j : ℕ) :
    (fs.take (j + 1)).sum = fs.headD 0 + (fs.tail.take j).sum := by
  cases fs with
  | nil => simp
  | cons f rest => simp [List.take_succ_cons]

lemma medianGo_spec (R IR : ℚ) :
    ∀ (vs fs : List ℚ) (nc : ℚ),
      (∀ x ∈ fs, 0 ≤ x) →
      (∃ j, j < vs.length ∧ IR ≤ nc + (fs.take (j + 1)).sum) →
      ∃ i, i < vs.length ∧
        (∀ j < i, nc + (fs.take (j + 1)).sum < IR) ∧
        IR ≤ nc + (fs.take (i + 1)).sum ∧
        medianGo R IR vs fs nc =
          (if nc + (fs.take (i + 1)).sum = IR then
            (if i + 1 < vs.length then
              vs.getD i 0 + (R - IR) * (vs.getD (i + 1) 0 - vs.getD i 0)
            else vs.getD i 0)
          else vs.getD i 0) := by
  intro vs
  induction vs with
  | nil =>
    rintro fs nc _ ⟨j, hj, _⟩
    exact absurd hj (by simp)
  | cons v vs ih =>
    rintro fs nc hnn ⟨j0, hj0, hge0⟩
    by_cases heq : nc + fs.headD 0 = IR
    · refine ⟨0, by simp, by simp, ?_, ?_⟩
      · rw [take_one_sum]
        exact le_of_eq heq.symm
      · rw [take_one_sum, if_pos heq]
        cases vs with
        | nil =>
          have hL : medianGo R IR [v] fs nc = v := by
            simp only [medianGo, if_pos heq]
          rw [hL]
          norm_num
        | cons v2 t =>
          have hL : medianGo R IR (v :: v2 :: t) fs nc =
              v + (R - IR) * (v2 - v) := by
            simp only [medianGo, if_pos heq]
          rw [hL, if_pos (show 0 + 1 < (v :: v2 :: t).length by
            simp only [List.length_cons]; omega)]
          simp
    · by_cases hlt : IR < nc + fs.headD 0
      · refine ⟨0, by simp, by simp, ?_, ?_⟩
        · rw [take_one_sum]
          exact le_of_lt hlt
        · rw [show medianGo R IR (v :: vs) fs nc = v from by
            simp only [medianGo, if_neg heq, if_pos hlt]]
          rw [take_one_sum, if_neg heq]
          simp
      · have hle : nc + fs.headD 0 < IR :=
          lt_of_le_of_ne (not_lt.mp hlt) heq
        have hnn2 : ∀ x ∈ fs.tail, 0 ≤ x := fun x hx =>
          hnn x (List.mem_of_mem_tail hx)
        have hex2 : ∃ j, j < vs.length ∧
            IR ≤ (nc + fs.headD 0) + (fs.tail.take (j + 1)).sum := by
          cases j0 with
          | zero =>
            rw [take_one_sum] at hge0
            exact absurd hge0 (not_le.mpr hle)
          | succ k =>
            refine ⟨k, by simpa using hj0, ?_⟩
            rw [take_succ_sum, ← add_assoc] at hge0
            exact hge0
        obtain ⟨i2, hi2, hmin2, hge2, heq2⟩ :=
          ih fs.tail (nc + fs.headD 0) hnn2 hex2
        refine ⟨i2 + 1, by simpa using hi2, ?_, ?_, ?_⟩
        · intro j hj
          cases j with
          | zero =>
            rw [take_one_sum]
            exact hle
          | succ k =>
            rw [take_succ_sum, ← add_assoc]
            exact hmin2 k (by omega)
        · rw [take_succ_sum, ← add_assoc]
          exact hge2
        · rw [show medianGo R IR (v :: vs) fs nc =
              medianGo R IR vs fs.tail (nc + fs.headD 0) from by
            simp only [medianGo, if_neg heq, if_neg hlt]]
          rw [take_succ_sum fs (i2 + 1), ← add_assoc]
          simp only [List.getD_cons_succ, List.length_cons,
            Nat.add_lt_add_iff_right]
          exact heq2

/-! ## Claim C4: the rank-R median rule -/

/-- C4: for a distribution with at least one observation, `median()` returns
the value determined by the first bin whose cumulative frequency reaches
`IR = floor(0.5·(n+1))`: interpolation toward the next bin on exact equality
(no interpolation at the last bin), the plain bin value when the cumulative
frequency strictly exceeds `IR`. -/
theorem median_rank_rule (d : HistogramData)
    (hlen : d.frequencies.length = d.values.length)
    (hnn : ∀ x ∈ d.frequencies, 0 ≤ x)
    (hobs : 1 ≤ d.numberOfObservations) :
    ∃ i, i < d.values.length ∧
      (∀ j < i, (d.frequencies.take (j + 1)).sum < d.medianIR) ∧
      d.medianIR ≤ (d.frequencies.take (i + 1)).sum ∧
      d.median =
        (if (d.frequencies.take (i + 1)).sum = d.medianIR then
          (if i + 1 < d.values.length then
            d.values.getD i 0 + (d.medianR - d.medianIR) *
              (d.values.getD (i + 1) 0 - d.values.getD i 0)
          else d.values.getD i 0)
        else d.values.getD i 0) := by
  have hfne : d.frequencies ≠ [] := by
    intro h
    rw [HistogramData.numberOfObservations, h] at hobs
    norm_num at hobs
  have hlen1 : 1 ≤ d.values.length := by
    rw [← hlen]
    exact List.length_pos.mpr hfne
  have hIRle : d.medianIR ≤ d.numberOfObservations := by
    have h1 : d.medianIR ≤ d.medianR := Int.floor_le _
    have h2 : d.medianR ≤ d.numberOfObservations := by
      rw [HistogramData.medianR]
      linarith
    linarith
  have hex : ∃ j, j < d.values.length ∧
      d.medianIR ≤ 0 + (d.frequencies.take (j + 1)).sum := by
    refine ⟨d.values.length - 1, by omega, ?_⟩
    have hj : d.values.length - 1 + 1 = d.values.length := by omega
    rw [hj, ← hlen, List.take_length, zero_add]
    exact hIRle
  obtain ⟨i, hi, hmin, hge, heq⟩ :=
    medianGo_spec d.medianR d.medianIR d.values d.frequencies 0 hnn hex
  refine ⟨i, hi, ?_, ?_, ?_⟩
  · intro j hj
    have h := hmin j hj
    rwa [zero_add] at h
  · rw [← zero_add ((d.frequencies.take (i + 1)).sum)]
    exact hge
  · have hm : d.median = medianGo d.medianR d.medianIR d.values d.frequencies 0 := rfl
    rw [hm, heq]
    simp only [zero_add]

/-- A concrete histogram with one observation, for the C4 witness. -/
def histB : HistogramData := HistogramData.mk [0, 1] [1, 0] 0 0

/-- Witness for C4 at a concrete input. -/
theorem median_rank_rule_witness :
    (1 ≤ histB.numberOfObservations) ∧
    ∃ i, i < histB.values.length ∧
      (∀ j < i, (histB.frequencies.take (j + 1)).sum < histB.medianIR) ∧
      histB.medianIR ≤ (histB.frequencies.take (i + 1)).sum ∧
      histB.median =
        (if (histB.frequencies.take (i + 1)).sum = histB.medianIR then
          (if i + 1 < histB.values.length then
            histB.values.getD i 0 + (histB.medianR - histB.medianIR) *
              (histB.values.getD (i + 1) 0 - histB.values.getD i 0)
          else histB.values.getD i 0)
        else histB.values.getD i 0) := by
  have hobs : 1 ≤ histB.numberOfObservations := by
    norm_num [HistogramData.numberOfObservations, histB]
  exact ⟨hobs, median_rank_rule histB rfl (by decide) hobs⟩

/-! ## Claim C10: median of an all-zero distribution -/

/-- C10: with all frequencies zero the median scan matches `IR = 0` at the
first bin and interpolates half a step upward: the result is
`values[0] + 0.5·(values[1] − values[0])`. -/
theorem median_empty_distribution (d : HistogramData)
    (h2 : 2 ≤ d.values.length) (hz : ∀ x ∈ d.frequencies, x = 0) :
    d.median = d.values.getD 0 0 +
      1 / 2 * (d.values.getD 1 0 - d.values.getD 0 0) := by
  have hn : d.numberOfObservations = 0 := List.sum_eq_zero hz
  have hR : d.medianR = 1 / 2 := by
    rw [HistogramData.medianR, hn]
    norm_num
  have hIR : d.medianIR = 0 := by
    rw [HistogramData.medianIR, hR]
    norm_num
  have hh : d.frequencies.headD 0 = 0 := by
    cases hf : d.frequencies with
    | nil => rfl
    | cons f fs => simpa using hz f (by rw [hf]; simp)
  obtain ⟨v0, v1, rest, hv⟩ : ∃ v0 v1 rest, d.values = v0 :: v1 :: rest := by
    rcases hvals : d.values with _ | ⟨w0, t⟩
    · rw [hvals] at h2
      simp at h2
    · rcases ht : t with _ | ⟨w1, rest⟩
      · rw [hvals, ht] at h2
        simp at h2
      · exact ⟨w0, w1, rest, rfl⟩
  have hm : d.median = medianGo d.medianR d.medianIR d.values d.frequencies 0 := rfl
  rw [hm, hv, hR, hIR]
  have hcond : (0 : ℚ) + d.frequencies.headD 0 = 0 := by
    rw [hh]
    norm_num
  have hL : medianGo (1 / 2) 0 (v0 :: v1 :: rest) d.frequencies 0 =
      v0 + (1 / 2 - 0) * (v1 - v0) := by
    simp only [medianGo, if_pos hcond]
  rw [hL]
  norm_num

/-- A concrete all-zero histogram, for the C10 witness. -/
def histC : HistogramData := HistogramData.mk [0, 1] [0, 0] 0 0

/-- Witness for C10 at a concrete input. -/
theorem median_empty_distribution_witness :
    (2 ≤ histC.values.length) ∧
    histC.median = histC.values.getD 0 0 +
      1 / 2 * (histC.values.getD 1 0 - histC.values.getD 0 0) :=
  ⟨by decide, median_empty_distribution histC (by decide) (by decide)⟩

/-! ## Sampling: single draws -/

/-- The cumulative-frequency table built by the sampling loops:
`totals[i] = Σ_{k ≤ i} frequencies[k]`, with `acc` the running total. -/
def partialSums (acc : ℚ) : List ℚ → List ℚ
  | [] => []
  | f :: fs => (acc + f) :: partialSums (acc + f) fs

/-- The inner scan of one draw: the first bin `j` with
`randomIndex ≤ totals[j]` yields `values[j]`; if no bin qualifies nothing is
pushed. -/
def pickValue : List ℚ → List ℚ → ℚ → Option ℚ
  | v :: vs, t :: ts, r => if r ≤ t then some v else pickValue vs ts r
  | _, _, _ => none

namespace Sampling

/-- The frequencies as read by the sampling loops: indices `0 ≤ i <
numberOfBins` of the frequency array. -/
def binFreqs (d : HistogramData) : List ℚ :=
  (List.range d.numberOfBins).map fun i => d.frequencies.getD i 0

/-- `Sampling.prototype.sample`: `sampleSize` draws, each picking
`round(random()·total)` and scanning the cumulative table. -/
def sample (d : HistogramData) (sampleSize : ℕ) (rand : ℕ → ℚ) : List ℚ :=
  (List.range sampleSize).filterMap fun i =>
    pickValue d.values (partialSums 0 (binFreqs d))
      ((jsRound (rand i * (binFreqs d).sum) : ℤ) : ℚ)

end Sampling

lemma binFreqs_eq (d : HistogramData)
    (hlen : d.frequencies.length = d.values.length) :
    Sampling.binFreqs d = d.frequencies := by
  unfold Sampling.binFreqs HistogramData.numberOfBins
  rw [← hlen]
  exact rangeMap_getD_self d.frequencies

lemma partialSums_length (acc : ℚ) :
    ∀ fs : List ℚ, (partialSums acc fs).length = fs.length := by
  intro fs
  induction fs generalizing acc with
  | nil => rfl
  | cons f rest ih => simp [partialSums, ih]

lemma total_mem_partialSums : ∀ (fs : List ℚ) (acc : ℚ), fs ≠ [] →
    (acc + fs.sum) ∈ partialSums acc fs := by
  intro fs
  induction fs with
  | nil => intro acc h; exact absurd rfl h
  | cons f rest ih =>
    intro acc _
    cases rest with
    | nil => simp [partialSums]
    | cons g gs =>
      rw [List.sum_cons, ← add_assoc]
      exact List.mem_cons_of_mem _ (ih (acc + f) (by simp))

lemma pickValue_mem : ∀ (vs ts : List ℚ) (r v : ℚ),
    pickValue vs ts r = some v → v ∈ vs := by
  intro vs
  induction vs with
  | nil => intro ts r v h; simp [pickValue] at h
  | cons x xs ih =>
    intro ts r v h
    cases ts with
    | nil => simp [pickValue] at h
    | cons t ts2 =>
      by_cases hr : r ≤ t
      · rw [pickValue, if_pos hr] at h
        rw [Option.some_inj] at h
        exact h ▸ List.mem_cons_self x xs
      · rw [pickValue, if_neg hr] at h
        exact List.mem_cons_of_mem x (ih ts2 r v h)

lemma pickValue_isSome : ∀ (ts vs : List ℚ), ts.length ≤ vs.length →
    ∀ r : ℚ, (∃ t ∈ ts, r ≤ t) → (pickValue vs ts r).isSome := by
  intro ts
  induction ts with
  | nil =>
    rintro vs _ r ⟨t, ht, _⟩
    exact absurd ht (by simp)
  | cons t ts2 ih =>
    rintro vs hlen r ⟨t0, ht0, hr0⟩
    cases vs with
    | nil => simp at hlen
    | cons v vs2 =>
      by_cases hr : r ≤ t
      · rw [pickValue, if_pos hr]
        rfl
      · rw [pickValue, if_neg hr]
        rcases List.mem_cons.mp ht0 with h | h
        · exact absurd (h ▸ hr0) hr
        · exact ih vs2 (by simpa using hlen) r ⟨t0, h, hr0⟩

lemma jsRound_nonneg_le (r : ℚ) (m : ℕ) (h0 : 0 ≤ r) (h1 : r < 1) :
    (0 : ℚ) ≤ (jsRound (r * m) : ℚ) ∧ (jsRound (r * m) : ℚ) ≤ m := by
  have hm : (0 : ℚ) ≤ (m : ℚ) := by positivity
  have hrm0 : (0 : ℚ) ≤ r * m := mul_nonneg h0 hm
  have hrm1 : r * m ≤ m := by
    calc r * m ≤ 1 * m := mul_le_mul_of_nonneg_right (le_of_lt h1) hm
    _ = m := one_mul _
  constructor
  · have h : (0 : ℤ) ≤ jsRound (r * m) := by
      rw [jsRound]
      exact Int.le_floor.mpr (by push_cast; linarith)
    exact_mod_cast h
  · have h : jsRound (r * m) < (m : ℤ) + 1 := by
      rw [jsRound]
      exact Int.floor_lt.mpr (by push_cast; linarith)
    have h2 : jsRound (r * m) ≤ (m : ℤ) := by omega
    exact_mod_cast h2

/-! ## Claim C5 (amended): sample size and membership -/

/-- C5 (amended): when the total frequency is a (non-negative) integer —
in particular for whole-number frequencies — `sample(distribution, n)`
returns exactly `n` values, each equal to one of `distribution.values`. -/
theorem sample_returns_n_values (d : HistogramData) (n : ℕ) (rand : ℕ → ℚ)
    (hlen : d.frequencies.length = d.values.length)
    (hN : 2 ≤ d.values.length)
    (hf : ∀ x ∈ d.frequencies, 0 ≤ x)
    (hint : ∃ m : ℕ, d.numberOfObservations = (m : ℚ))
    (hrand : ∀ i, 0 ≤ rand i ∧ rand i < 1) :
    (Sampling.sample d n rand).length = n ∧
    ∀ x ∈ Sampling.sample d n rand, x ∈ d.values := by
  obtain ⟨m, hm⟩ := hint
  have hbf : Sampling.binFreqs d = d.frequencies := binFreqs_eq d hlen
  have hsum : (Sampling.binFreqs d).sum = (m : ℚ) := by
    rw [hbf]
    exact hm
  constructor
  · unfold Sampling.sample
    refine (filterMap_length_of_isSome _ (List.range n) ?_).trans (List.length_range n)
    intro i _
    apply pickValue_isSome
    · rw [partialSums_length, hbf, hlen]
    · refine ⟨0 + (Sampling.binFreqs d).sum, ?_, ?_⟩
      · apply total_mem_partialSums
        rw [hbf]
        intro hnil
        rw [hnil] at hlen
        simp at hlen
        omega
      · rw [zero_add, hsum]
        exact (jsRound_nonneg_le (rand i) m (hrand i).1 (hrand i).2).2
  · intro x hx
    unfold Sampling.sample at hx
    obtain ⟨i, _, hpick⟩ := List.mem_filterMap.mp hx
    exact pickValue_mem _ _ _ _ hpick

/-- A histogram with fractional frequencies totalling 7/10, used to refute
C5 as stated. -/
def histD : HistogramData := HistogramData.mk [0, 1] [7/10, 0] 0 0

/-- C5 counterexample: `histD` has two increasing bins and non-negative
frequencies, the draw 6/7 lies in `[0,1)`, yet `sample(histD, 1)` returns no
values: `round((6/7)·(7/10)) = 1` exceeds the whole cumulative table. -/
theorem sample_short_counterexample :
    (∀ x ∈ histD.frequencies, 0 ≤ x) ∧
    ((0 : ℚ) ≤ 6/7 ∧ (6 : ℚ)/7 < 1) ∧
    Sampling.sample histD 1 (fun _ => 6/7) = [] := by
  refine ⟨by norm_num [histD], by norm_num, ?_⟩
  have hbf : Sampling.binFreqs histD = [7/10, 0] := binFreqs_eq histD rfl
  unfold Sampling.sample
  rw [hbf]
  have hsum : ([7/10, 0] : List ℚ).sum = 7/10 := by norm_num
  have hps : partialSums 0 [7/10, 0] = [7/10, 7/10] := by
    simp [partialSums]
  rw [hsum, hps]
  have hround : ((jsRound ((6 : ℚ)/7 * (7/10)) : ℤ) : ℚ) = 1 := by
    rw [jsRound]
    norm_num
  have hpick : pickValue histD.values [7/10, 7/10] 1 = none := by
    have h1 : ¬ ((1 : ℚ) ≤ 7/10) := by norm_num
    show pickValue (0 :: 1 :: ([] : List ℚ)) (7/10 :: 7/10 :: ([] : List ℚ)) 1 = none
    rw [pickValue, if_neg h1, pickValue, if_neg h1]
    rfl
  simp [hround, hpick]

/-- A concrete unit-frequency histogram for sampling witnesses. -/
def histE : HistogramData := HistogramData.mk [0, 1] [1, 1] 1 1

/-- Witness for (amended) C5 at a concrete input. -/
theorem sample_returns_n_values_witness :
    (∃ m : ℕ, histE.numberOfObservations = (m : ℚ)) ∧
    (Sampling.sample histE 2 (fun _ => 1/2)).length = 2 ∧
    ∀ x ∈ Sampling.sample histE 2 (fun _ => 1/2), x ∈ histE.values := by
  have hint : ∃ m : ℕ, histE.numberOfObservations = (m : ℚ) :=
    ⟨2, by norm_num [HistogramData.numberOfObservations, histE]⟩
  exact ⟨hint, sample_returns_n_values histE 2 (fun _ => 1/2) rfl (by decide)
    (by decide) hint (fun i => ⟨by norm_num, by norm_num⟩)⟩

/-! ## Sampling: sampleMany -/

/-- The inner loop of `Sampling.prototype.sampleMany`: one sample of
`sampleSize` draws.  `k` counts `Math.random()` calls, `buf` is the
persistent `sampleData` array (a `none` entry is a hole), `log` is the
running `sampleValues` push log.  A found draw is jittered when the
distribution is flagged Normal (consuming a second random number), rounded
to two decimals, stored at `buf[i]` and appended to the log; a failed scan
stores and appends nothing. -/
def sampleManyDraw (values totals : List ℚ) (total step2 : ℚ) (isNormal : Bool)
    (rand : ℕ → ℚ) :
    ℕ → ℕ → List (Option ℚ) → List ℚ → ℕ → ℕ × List (Option ℚ) × List ℚ
  | 0, k, buf, log, _ => (k, buf, log)
  | remaining + 1, k, buf, log, i =>
    match pickValue values totals ((jsRound (rand k * total) : ℤ) : ℚ) with
    | none =>
      sampleManyDraw values totals total step2 isNormal rand remaining (k + 1)
        buf log (i + 1)
    | some v =>
      sampleManyDraw values totals total step2 isNormal rand remaining
        (if isNormal then k + 2 else k + 1)
        (buf.set i
          (some (roundTo2 (if isNormal then v + (rand (k + 1) - 1/2) * step2 else v))))
        (log ++ [roundTo2 (if isNormal then v + (rand (k + 1) - 1/2) * step2 else v)])
        (i + 1)

/-- The outer loop of `sampleMany`: `numberOfSamples` rounds of the inner
loop over the same persistent buffer; the buffer snapshot after each round
is what `reduceFunction` is applied to. -/
def sampleManyRun (values totals : List ℚ) (total step2 : ℚ) (isNormal : Bool)
    (rand : ℕ → ℚ) (sampleSize : ℕ) :
    ℕ → ℕ → List (Option ℚ) → List ℚ → List (List (Option ℚ)) × List ℚ
  | 0, _, _, log => ([], log)
  | numberOfSamples + 1, k, buf, log =>
    ((sampleManyDraw values totals total step2 isNormal rand sampleSize k buf log 0).2.1 ::
      (sampleManyRun values totals total step2 isNormal rand sampleSize
        numberOfSamples
        (sampleManyDraw values totals total step2 isNormal rand sampleSize k buf log 0).1
        (sampleManyDraw values totals total step2 isNormal rand sampleSize k buf log 0).2.1
        (sampleManyDraw values totals total step2 isNormal rand sampleSize k buf log 0).2.2).1,
      (sampleManyRun values totals total step2 isNormal rand sampleSize
        numberOfSamples
        (sampleManyDraw values totals total step2 isNormal rand sampleSize k buf log 0).1
        (sampleManyDraw values totals total step2 isNormal rand sampleSize k buf log 0).2.1
        (sampleManyDraw values totals total step2 isNormal rand sampleSize k buf log 0).2.2).2)

namespace Sampling

/-- `Sampling.prototype.sampleMany`, instrumented: returns the list of
buffer snapshots handed to the reduce function and the accumulated
`sampleValues` log. -/
def sampleManyCore (d : HistogramData) (sampleSize numberOfSamples : ℕ)
    (isNormal : Bool) (rand : ℕ → ℚ) : List (List (Option ℚ)) × List ℚ :=
  sampleManyRun d.values (partialSums 0 (binFreqs d)) (binFreqs d).sum
    ((d.values.getD 1 0 - d.values.getD 0 0) / 2) isNormal rand sampleSize
    numberOfSamples 0 (List.replicate sampleSize none) []

/-- The value `sampleMany` returns: the reduce function applied to each
buffer snapshot. -/
def sampleMany (d : HistogramData) (sampleSize numberOfSamples : ℕ)
    (reduceFunction : List (Option ℚ) → ℚ) (isNormal : Bool) (rand : ℕ → ℚ) :
    List ℚ :=
  (sampleManyCore d sampleSize numberOfSamples isNormal rand).1.map reduceFunction

end Sampling

lemma sampleManyDraw_invariant (values totals : List ℚ) (total step2 : ℚ)
    (isNormal : Bool) (rand : ℕ → ℚ) (Q : ℚ → Prop)
    (hQ : ∀ (kk : ℕ) (v : ℚ), v ∈ values →
      Q (roundTo2 (if isNormal then v + (rand kk - 1/2) * step2 else v))) :
    ∀ (remaining k i : ℕ) (buf : List (Option ℚ)) (log : List ℚ),
      (∀ x ∈ log, Q x) →
      (∀ o ∈ buf, ∀ x, o = some x → Q x) →
      (∀ x ∈ (sampleManyDraw values totals total step2 isNormal rand
          remaining k buf log i).2.2, Q x) ∧
      (∀ o ∈ (sampleManyDraw values totals total step2 isNormal rand
          remaining k buf log i).2.1, ∀ x, o = some x → Q x) := by
  intro remaining
  induction remaining with
  | zero =>
    intro k i buf log hlog hbuf
    exact ⟨hlog, hbuf⟩
  | succ rem ih =>
    intro k i buf log hlog hbuf
    cases hpick : pickValue values totals ((jsRound (rand k * total) : ℤ) : ℚ) with
    | none =>
      rw [show sampleManyDraw values totals total step2 isNormal rand
          (rem + 1) k buf log i =
          sampleManyDraw values totals total step2 isNormal rand rem (k + 1)
            buf log (i + 1) from by
        simp only [sampleManyDraw, hpick]]
      exact ih (k + 1) (i + 1) buf log hlog hbuf
    | some v =>
      have hv : v ∈ values := pickValue_mem _ _ _ _ hpick
      rw [show sampleManyDraw values totals total step2 isNormal rand
          (rem + 1) k buf log i =
          sampleManyDraw values totals total step2 isNormal rand rem
            (if isNormal then k + 2 else k + 1)
            (buf.set i (some (roundTo2
              (if isNormal then v + (rand (k + 1) - 1/2) * step2 else v))))
            (log ++ [roundTo2
              (if isNormal then v + (rand (k + 1) - 1/2) * step2 else v)])
            (i + 1) from by
        simp only [sampleManyDraw, hpick]]
      apply ih
      · intro x hx
        rcases List.mem_append.mp hx with h | h
        · exact hlog x h
        · rw [List.mem_singleton.mp h]
          exact hQ (k + 1) v hv
      · intro o ho x hox
        rcases List.mem_or_eq_of_mem_set ho with h | h
        · exact hbuf o h x hox
        · rw [h] at hox
          rw [Option.some_inj] at hox
          rw [← hox]
          exact hQ (k + 1) v hv

lemma sampleManyRun_invariant (values totals : List ℚ) (total step2 : ℚ)
    (isNormal : Bool) (rand : ℕ → ℚ) (sampleSize : ℕ) (Q : ℚ → Prop)
    (hQ : ∀ (kk : ℕ) (v : ℚ), v ∈ values →
      Q (roundTo2 (if isNormal then v + (rand kk - 1/2) * step2 else v))) :
    ∀ (numberOfSamples k : ℕ) (buf : List (Option ℚ)) (log : List ℚ),
      (∀ x ∈ log, Q x) →
      (∀ o ∈ buf, ∀ x, o = some x → Q x) →
      (∀ x ∈ (sampleManyRun values totals total step2 isNormal rand sampleSize
          numberOfSamples k buf log).2, Q x) ∧
      (∀ s ∈ (sampleManyRun values totals total step2 isNormal rand sampleSize
          numberOfSamples k buf log).1, ∀ o ∈ s, ∀ x, o = some x → Q x) := by
  intro numberOfSamples
  induction numberOfSamples with
  | zero =>
    intro k buf log hlog _
    exact ⟨hlog, by simp [sampleManyRun]⟩
  | succ ns ih =>
    intro k buf log hlog hbuf
    obtain ⟨hlog2, hbuf2⟩ := sampleManyDraw_invariant values totals total step2
      isNormal rand Q hQ sampleSize k 0 buf log hlog hbuf
    obtain ⟨hlog3, hsnap3⟩ := ih
      (sampleManyDraw values totals total step2 isNormal rand sampleSize k buf log 0).1
      (sampleManyDraw values totals total step2 isNormal rand sampleSize k buf log 0).2.1
      (sampleManyDraw values totals total step2 isNormal rand sampleSize k buf log 0).2.2
      hlog2 hbuf2
    constructor
    · exact hlog3
    · intro s hs
      rcases List.mem_cons.mp hs with h | h
      · rw [h]
        exact hbuf2
      · exact hsnap3 s h

/-! ## Claim C9: sampleMany records only two-decimal roundings -/

/-- C9: every value recorded by `sampleMany` — in the buffer snapshots handed
to the reduce function and in the raw-draw log — is a two-decimal rounding
(`round(100·v)/100`); with no continuous jitter every recorded value is the
two-decimal rounding of a bin value, so the reduce function never sees the
exact drawn values. -/
theorem sampleMany_two_decimal_rounding (d : HistogramData)
    (sampleSize numberOfSamples : ℕ) (rand : ℕ → ℚ) :
    (∀ isNormal : Bool,
      (∀ x ∈ (Sampling.sampleManyCore d sampleSize numberOfSamples
          isNormal rand).2, ∃ z : ℤ, x = (z : ℚ) / 100) ∧
      (∀ s ∈ (Sampling.sampleManyCore d sampleSize numberOfSamples
          isNormal rand).1, ∀ o ∈ s, ∀ x, o = some x → ∃ z : ℤ, x = (z : ℚ) / 100)) ∧
    ((∀ x ∈ (Sampling.sampleManyCore d sampleSize numberOfSamples
        false rand).2, x ∈ d.values.map roundTo2) ∧
      (∀ s ∈ (Sampling.sampleManyCore d sampleSize numberOfSamples
          false rand).1, ∀ o ∈ s, ∀ x, o = some x → x ∈ d.values.map roundTo2)) ∧
    (∀ (isNormal : Bool) (reduceFunction : List (Option ℚ) → ℚ),
      Sampling.sampleMany d sampleSize numberOfSamples reduceFunction
          isNormal rand =
        (Sampling.sampleManyCore d sampleSize numberOfSamples
          isNormal rand).1.map reduceFunction) := by
  have hbuf0 : ∀ o ∈ List.replicate sampleSize (none : Option ℚ),
      ∀ x : ℚ, o = some x → False := by
    intro o ho x hox
    rw [List.eq_of_mem_replicate ho] at hox
    cases hox
  refine ⟨?_, ?_, fun _ _ => rfl⟩
  · intro isNormal
    have h := sampleManyRun_invariant d.values
      (partialSums 0 (Sampling.binFreqs d)) (Sampling.binFreqs d).sum
      ((d.values.getD 1 0 - d.values.getD 0 0) / 2) isNormal rand sampleSize
      (fun x => ∃ z : ℤ, x = (z : ℚ) / 100)
      (fun kk v _ => ⟨jsRound (100 * (if isNormal then
        v + (rand kk - 1/2) * ((d.values.getD 1 0 - d.values.getD 0 0) / 2)
        else v)), rfl⟩)
      numberOfSamples 0 (List.replicate sampleSize none) []
      (by intro x hx; cases hx)
      (fun o ho x hox => absurd (hbuf0 o ho x hox) id)
    exact h
  · have h := sampleManyRun_invariant d.values
      (partialSums 0 (Sampling.binFreqs d)) (Sampling.binFreqs d).sum
      ((d.values.getD 1 0 - d.values.getD 0 0) / 2) false rand sampleSize
      (fun x => x ∈ d.values.map roundTo2)
      (fun kk v hv => by
        simp only [Bool.false_eq_true, if_false]
        exact List.mem_map_of_mem roundTo2 hv)
      numberOfSamples 0 (List.replicate sampleSize none) []
      (by intro x hx; cases hx)
      (fun o ho x hox => absurd (hbuf0 o ho x hox) id)
    exact h

lemma sampleManyCore_histE_eval :
    Sampling.sampleManyCore histE 1 1 false (fun _ => 0) = ([[some 0]], [0]) := by
  have hbf : Sampling.binFreqs histE = [1, 1] := binFreqs_eq histE rfl
  have hps : partialSums 0 ([1, 1] : List ℚ) = [1, 2] := by
    norm_num [partialSums]
  have hsum : ([1, 1] : List ℚ).sum = 2 := by norm_num
  have hr0 : ((jsRound ((0 : ℚ) * 2) : ℤ) : ℚ) = 0 := by
    rw [jsRound]
    norm_num
  have hpick : pickValue [0, 1] [1, 2] 0 = some 0 := by
    rw [pickValue, if_pos (by norm_num : (0 : ℚ) ≤ 1)]
  have hr2 : roundTo2 (0 : ℚ) = 0 := by
    rw [roundTo2, jsRound]
    norm_num
  have hr0b : ((jsRound (0 : ℚ) : ℤ) : ℚ) = 0 := by
    rw [jsRound]
    norm_num
  have hdraw : ∀ s2 : ℚ, sampleManyDraw [0, 1] [1, 2] 2 s2 false (fun _ => 0)
      1 0 [none] [] 0 = (1, [some 0], [0]) := by
    intro s2
    simp [sampleManyDraw, hr0, hr0b, hpick, hr2]
  unfold Sampling.sampleManyCore
  rw [hbf, hps, hsum]
  show sampleManyRun [0, 1] [1, 2] 2 ((histE.values.getD 1 0 -
    histE.values.getD 0 0) / 2) false (fun _ => 0) 1 1 0 [none] [] = ([[some 0]], [0])
  simp only [sampleManyRun, hdraw]

/-- Witness for C9 at a concrete input: the single value logged by a
one-draw, no-jitter run over `histE` is a two-decimal rounding of a bin
value. -/
theorem sampleMany_two_decimal_rounding_witness :
    (0 : ℚ) ∈ histE.values.map roundTo2 := by
  refine ((sampleMany_two_decimal_rounding histE 1 1 (fun _ => 0)).2.1).1 0 ?_
  rw [sampleManyCore_histE_eval]
  simp

/-! ## Claim C6: makeWithDataPoints -/

lemma binIndex_in_range (x : ℚ) (binValues : List ℚ) (h1 : 1 ≤ binValues.length) :
    0 ≤ HistogramData.binIndexForDataPoint x binValues ∧
    (HistogramData.binIndexForDataPoint x binValues).toNat < binValues.length := by
  unfold HistogramData.binIndexForDataPoint
  dsimp only
  have hN : (1 : ℤ) ≤ (binValues.length : ℤ) := by exact_mod_cast h1
  omega

lemma getD_set_self (l : List ℚ) (a : ℚ) :
    ∀ i, i < l.length → (l.set i a).getD i 0 = a := by
  induction l with
  | nil => intro i hi; simp at hi
  | cons x xs ih =>
    intro i hi
    cases i with
    | zero => rfl
    | succ j => exact ih j (by simpa using hi)

lemma getD_set_ne (l : List ℚ) (a : ℚ) :
    ∀ i j, i ≠ j → (l.set i a).getD j 0 = l.getD j 0 := by
  induction l with
  | nil => intro i j _; simp
  | cons x xs ih =>
    intro i j hne
    cases i with
    | zero =>
      cases j with
      | zero => exact absurd rfl hne
      | succ jj => rfl
    | succ ii =>
      cases j with
      | zero => rfl
      | succ jj => exact ih ii jj (fun h => hne (by rw [h]))

lemma sum_set_getD (l : List ℚ) :
    ∀ i, i < l.length → (l.set i (l.getD i 0 + 1)).sum = l.sum + 1 := by
  induction l with
  | nil => intro i hi; simp at hi
  | cons x xs ih =>
    intro i hi
    cases i with
    | zero =>
      simp only [List.getD_cons_zero, List.set_cons_zero, List.sum_cons]
      ring
    | succ j =>
      have hj : j < xs.length := by simpa using hi
      simp only [List.getD_cons_succ, List.set_cons_succ, List.sum_cons, ih j hj]
      ring

lemma getD_replicate_zero : ∀ (n k : ℕ), (List.replicate n (0 : ℚ)).getD k 0 = 0
  | 0, _ => by simp
  | n + 1, 0 => rfl
  | n + 1, k + 1 => getD_replicate_zero n k

lemma mwdpGo_spec (binValues : List ℚ) (hb : 1 ≤ binValues.length) :
    ∀ (ps freqs : List ℚ) (s q : ℚ), freqs.length = binValues.length →
      (mwdpGo binValues ps freqs s q).1.length = binValues.length ∧
      (∀ k : ℕ, (mwdpGo binValues ps freqs s q).1.getD k 0 =
        freqs.getD k 0 +
          ((ps.filter fun p =>
            decide (HistogramData.binIndexForDataPoint p binValues = (k : ℤ))).length : ℚ)) ∧
      (mwdpGo binValues ps freqs s q).1.sum = freqs.sum + (ps.length : ℚ) ∧
      (mwdpGo binValues ps freqs s q).2.1 = s + ps.sum ∧
      (mwdpGo binValues ps freqs s q).2.2 = q + (ps.map fun p => p * p).sum := by
  intro ps
  induction ps with
  | nil =>
    intro freqs s q hlen
    refine ⟨hlen, ?_, by simp [mwdpGo], by simp [mwdpGo], by simp [mwdpGo]⟩
    intro k
    simp [mwdpGo]
  | cons p ps ih =>
    intro freqs s q hlen
    obtain ⟨hb0, hb1⟩ := binIndex_in_range p binValues hb
    have hblt : (HistogramData.binIndexForDataPoint p binValues).toNat < freqs.length := by
      rw [hlen]
      exact hb1
    have hset : bumpFreq freqs (HistogramData.binIndexForDataPoint p binValues) =
        freqs.set (HistogramData.binIndexForDataPoint p binValues).toNat
          (freqs.getD (HistogramData.binIndexForDataPoint p binValues).toNat 0 + 1) := by
      unfold bumpFreq
      rw [if_pos ⟨hb0, hblt⟩]
    have hlen2 : (freqs.set (HistogramData.binIndexForDataPoint p binValues).toNat
        (freqs.getD (HistogramData.binIndexForDataPoint p binValues).toNat 0 + 1)).length =
        binValues.length := by
      rw [List.length_set]
      exact hlen
    obtain ⟨ih1, ih2, ih3, ih4, ih5⟩ := ih
      (freqs.set (HistogramData.binIndexForDataPoint p binValues).toNat
        (freqs.getD (HistogramData.binIndexForDataPoint p binValues).toNat 0 + 1))
      (s + p) (q + p * p) hlen2
    have hstep : mwdpGo binValues (p :: ps) freqs s q =
        mwdpGo binValues ps
          (freqs.set (HistogramData.binIndexForDataPoint p binValues).toNat
            (freqs.getD (HistogramData.binIndexForDataPoint p binValues).toNat 0 + 1))
          (s + p) (q + p * p) := by
      simp only [mwdpGo, hset]
    rw [hstep]
    refine ⟨ih1, ?_, ?_, ?_, ?_⟩
    · intro k
      rw [ih2 k]
      by_cases hk : (HistogramData.binIndexForDataPoint p binValues).toNat = k
      · have hcond : HistogramData.binIndexForDataPoint p binValues = (k : ℤ) := by
          rw [← hk]
          exact (Int.toNat_of_nonneg hb0).symm
        rw [hk] at hblt ⊢
        rw [getD_set_self freqs _ k hblt]
        rw [List.filter_cons, if_pos (by simp [hcond]), List.length_cons]
        push_cast
        ring
      · rw [getD_set_ne freqs _ _ k hk]
        have hcond : ¬ (HistogramData.binIndexForDataPoint p binValues = (k : ℤ)) := by
          intro hc
          apply hk
          rw [hc]
          exact Int.toNat_natCast k
        rw [List.filter_cons, if_neg (by simp [hcond])]
    · rw [ih3, sum_set_getD freqs _ hblt, List.length_cons]
      push_cast
      ring
    · rw [ih4, List.sum_cons]
      ring
    · rw [ih5, List.map_cons, List.sum_cons]
      ring

lemma make_values (v f : List ℚ) (a b : ℚ) :
    (HistogramData.make v f a b).values = v := by
  unfold HistogramData.make
  split <;> rfl

lemma make_frequencies (v f : List ℚ) (a b : ℚ) :
    (HistogramData.make v f a b).frequencies = f := by
  unfold HistogramData.make
  split <;> rfl

lemma make_sums_of_ne (v f : List ℚ) (a b : ℚ) (h : ¬ (a = 0 ∧ b = 0)) :
    (HistogramData.make v f a b).sum = a ∧
    (HistogramData.make v f a b).sumOfSquares = b := by
  unfold HistogramData.make
  rw [if_neg h]
  exact ⟨rfl, rfl⟩

/-- C6 (amended): `makeWithDataPoints` bins every point (frequency `k` counts
the points with bin index `k`, the observation count is the number of
points), and its `sum`/`sumOfSquares` are the raw-point accumulations —
except when the accumulated sum and sum of squares are both zero (all points
zero), in which case the constructor's falsy-check recomputes them from the
binned values. -/
theorem makeWithDataPoints_accumulates (datapoints binValues : List ℚ)
    (h2 : 2 ≤ binValues.length) :
    (HistogramData.makeWithDataPoints datapoints binValues).values = binValues ∧
    (HistogramData.makeWithDataPoints datapoints binValues).frequencies.length =
      binValues.length ∧
    (∀ k : ℕ,
      (HistogramData.makeWithDataPoints datapoints binValues).frequencies.getD k 0 =
        ((datapoints.filter fun p =>
          decide (HistogramData.binIndexForDataPoint p binValues = (k : ℤ))).length : ℚ)) ∧
    (HistogramData.makeWithDataPoints datapoints binValues).numberOfObservations =
      (datapoints.length : ℚ) ∧
    (¬ (datapoints.sum = 0 ∧ (datapoints.map fun p => p * p).sum = 0) →
      (HistogramData.makeWithDataPoints datapoints binValues).sum = datapoints.sum ∧
      (HistogramData.makeWithDataPoints datapoints binValues).sumOfSquares =
        (datapoints.map fun p => p * p).sum) := by
  have hb : 1 ≤ binValues.length := le_trans (by norm_num) h2
  obtain ⟨g1, g2, g3, g4, g5⟩ := mwdpGo_spec binValues hb datapoints
    (List.replicate binValues.length 0) 0 0 (List.length_replicate _ _)
  have hmk : HistogramData.makeWithDataPoints datapoints binValues =
      HistogramData.make binValues
        (mwdpGo binValues datapoints (List.replicate binValues.length 0) 0 0).1
        (mwdpGo binValues datapoints (List.replicate binValues.length 0) 0 0).2.1
        (mwdpGo binValues datapoints (List.replicate binValues.length 0) 0 0).2.2 := rfl
  refine ⟨?_, ?_, ?_, ?_, ?_⟩
  · rw [hmk, make_values]
  · rw [hmk, make_frequencies, g1]
  · intro k
    rw [hmk, make_frequencies, g2 k, getD_replicate_zero, zero_add]
  · rw [hmk, HistogramData.numberOfObservations, make_frequencies, g3]
    simp
  · intro hne
    rw [hmk]
    have hs : (mwdpGo binValues datapoints (List.replicate binValues.length 0) 0 0).2.1 =
        datapoints.sum := by
      rw [g4, zero_add]
    have hq : (mwdpGo binValues datapoints (List.replicate binValues.length 0) 0 0).2.2 =
        (datapoints.map fun p => p * p).sum := by
      rw [g5, zero_add]
    rw [hs, hq]
    exact make_sums_of_ne _ _ _ _ hne

/-- C6 counterexample: the data set `[0]` with bins `[1, 2]` has raw sum `0`
and raw sum of squares `0`, so the constructor recomputes the aggregates
from the binned values and stores `sum = 1`, not the raw-point sum `0`. -/
theorem makeWithDataPoints_zero_counterexample :
    (HistogramData.makeWithDataPoints [0] [1, 2]).sum ≠ ([(0 : ℚ)]).sum := by
  have hbin : HistogramData.binIndexForDataPoint 0 [1, 2] = 0 := by
    unfold HistogramData.binIndexForDataPoint
    dsimp only
    have hjr : jsRound (((0 : ℚ) - ([1, 2] : List ℚ).getD 0 0) /
        (([1, 2] : List ℚ).getD 1 0 - ([1, 2] : List ℚ).getD 0 0)) = -1 := by
      rw [jsRound]
      norm_num
    rw [hjr]
    decide
  have hacc : mwdpGo [1, 2] [0] (List.replicate 2 0) 0 0 = ([1, 0], 0, 0) := by
    have hrep : List.replicate 2 (0 : ℚ) = [0, 0] := rfl
    have hbump : bumpFreq [0, 0]
        (HistogramData.binIndexForDataPoint 0 [1, 2]) = [1, 0] := by
      rw [hbin]
      unfold bumpFreq
      rw [if_pos (by norm_num)]
      norm_num
    simp [mwdpGo, hrep, hbump]
  have hmk : HistogramData.makeWithDataPoints [0] [1, 2] =
      HistogramData.make [1, 2]
        (mwdpGo [1, 2] [0] (List.replicate 2 0) 0 0).1
        (mwdpGo [1, 2] [0] (List.replicate 2 0) 0 0).2.1
        (mwdpGo [1, 2] [0] (List.replicate 2 0) 0 0).2.2 := rfl
  rw [hmk, hacc]
  have hmake : HistogramData.make [1, 2] [1, 0] 0 0 =
      HistogramData.mk [1, 2] [1, 0] (computedSum [1, 2] [1, 0])
        (computedSumOfSquares [1, 2] [1, 0]) := by
    unfold HistogramData.make
    rw [if_pos ⟨rfl, rfl⟩]
  rw [hmake]
  show computedSum [1, 2] [1, 0] ≠ ([(0 : ℚ)]).sum
  rw [computedSum_eq_zipWith [1, 2] [1, 0] rfl]
  norm_num

/-- Witness for (amended) C6 at a concrete input. -/
theorem makeWithDataPoints_accumulates_witness :
    (HistogramData.makeWithDataPoints [1, 2] [0, 1, 2, 3]).numberOfObservations = 2 ∧
    (HistogramData.makeWithDataPoints [1, 2] [0, 1, 2, 3]).sum = 3 := by
  have h := makeWithDataPoints_accumulates [1, 2] [0, 1, 2, 3] (by norm_num)
  constructor
  · rw [h.2.2.2.1]
    norm_num
  · rw [(h.2.2.2.2 (by norm_num)).1]
    norm_num

/-! ## Claim C1: zprob -/

/-- The 12-term series of `StatisticsFunctions.zprob` evaluated at `|z|`:
`b = Σ_{k=0}^{11} exp(−h²/9)·sin(h·s)/h` with `h = 0.5 + k`,
`s = √2/3·|z|`. -/
noncomputable def StatisticsFunctions.zprobSeries (za : ℝ) : ℝ :=
  ∑ i ∈ Finset.range 12,
    Real.exp (-((0.5 + (i : ℝ)) * (0.5 + (i : ℝ))) / 9) *
      Real.sin ((0.5 + (i : ℝ)) * (Real.sqrt 2 / 3 * za)) / (0.5 + (i : ℝ))

/-- `StatisticsFunctions.zprob`: clamps to `0`/`1` outside `[−7, 7]`,
otherwise `p = 0.5 − b/π` from the series at `|z|`, reflected to `1 − p`
when `z` is negative. -/
noncomputable def StatisticsFunctions.zprob (z : ℝ) : ℝ :=
  if z < -7 then 0
  else if z > 7 then 1
  else if z < 0 then 1 - (0.5 - StatisticsFunctions.zprobSeries |z| / Real.pi)
  else 0.5 - StatisticsFunctions.zprobSeries |z| / Real.pi

lemma zprobSeries_zero : StatisticsFunctions.zprobSeries 0 = 0 := by
  unfold StatisticsFunctions.zprobSeries
  apply Finset.sum_eq_zero
  intro i _
  rw [mul_zero, mul_zero, Real.sin_zero, mul_zero, zero_div]

lemma zprobSeries_pos_at_tenth : 0 < StatisticsFunctions.zprobSeries (1/10) := by
  unfold StatisticsFunctions.zprobSeries
  apply Finset.sum_pos
  · intro i hi
    have hi11 : (i : ℝ) ≤ 11 := by
      have h : i ≤ 11 := Nat.lt_succ_iff.mp (Finset.mem_range.mp hi)
      exact_mod_cast h
    have hh : (0 : ℝ) < 0.5 + (i : ℝ) := by positivity
    have hs0 : 0 < Real.sqrt 2 := Real.sqrt_pos.mpr (by norm_num)
    have hs2 : Real.sqrt 2 < 1.5 :=
      (Real.sqrt_lt' (by norm_num)).mpr (by norm_num)
    have harg0 : 0 < (0.5 + (i : ℝ)) * (Real.sqrt 2 / 3 * (1/10)) := by positivity
    have harg1 : (0.5 + (i : ℝ)) * (Real.sqrt 2 / 3 * (1/10)) < Real.pi := by
      have h1 : (0.5 + (i : ℝ)) * (Real.sqrt 2 / 3 * (1/10)) ≤
          11.5 * (Real.sqrt 2 / 3 * (1/10)) := by
        apply mul_le_mul_of_nonneg_right (by linarith) (by positivity)
      have h2 : 11.5 * (Real.sqrt 2 / 3 * (1/10)) < 3 := by nlinarith
      linarith [Real.pi_gt_three]
    exact div_pos (mul_pos (Real.exp_pos _)
      (Real.sin_pos_of_pos_of_lt_pi harg0 harg1)) hh
  · exact ⟨0, Finset.mem_range.mpr (by norm_num)⟩

/-- C1 (code bug): the clamps give `zprob(10) = 1`, `zprob(−10) = 0` and the
series gives `zprob(0) = 1/2` exactly, but on `(−7, 7)` the series computes
the upper-tail area, so `zprob` is strictly decreasing there:
`zprob(1/10) < zprob(−1/10)` although `−1/10 ≤ 1/10`, contradicting the
claimed monotone non-decreasing CDF behaviour (and the code's own clamp
branches). -/
theorem zprob_code_bug :
    StatisticsFunctions.zprob 0 = 1/2 ∧
    StatisticsFunctions.zprob 10 = 1 ∧
    StatisticsFunctions.zprob (-10) = 0 ∧
    StatisticsFunctions.zprob (1/10) < StatisticsFunctions.zprob (-1/10) := by
  refine ⟨?_, ?_, ?_, ?_⟩
  · unfold StatisticsFunctions.zprob
    rw [if_neg (by norm_num), if_neg (by norm_num), if_neg (by norm_num),
      abs_zero, zprobSeries_zero]
    norm_num
  · unfold StatisticsFunctions.zprob
    rw [if_neg (by norm_num), if_pos (by norm_num)]
  · unfold StatisticsFunctions.zprob
    rw [if_pos (by norm_num)]
  · have h1 : StatisticsFunctions.zprob (1/10) =
        0.5 - StatisticsFunctions.zprobSeries (1/10) / Real.pi := by
      unfold StatisticsFunctions.zprob
      rw [if_neg (by norm_num), if_neg (by norm_num), if_neg (by norm_num),
        abs_of_nonneg (by norm_num : (0:ℝ) ≤ 1/10)]
    have h2 : StatisticsFunctions.zprob (-1/10) =
        1 - (0.5 - StatisticsFunctions.zprobSeries (1/10) / Real.pi) := by
      unfold StatisticsFunctions.zprob
      rw [if_neg (by norm_num), if_neg (by norm_num), if_pos (by norm_num),
        abs_of_nonpos (by norm_num : (-1/10 : ℝ) ≤ 0)]
      norm_num
    rw [h1, h2]
    have hq : 0 < StatisticsFunctions.zprobSeries (1/10) / Real.pi :=
      div_pos zprobSeries_pos_at_tenth Real.pi_pos
    linarith
